import Mathlib

/-!
Verification of the numerical physics core of the virtual-quantum-lab
application: quantum barrier tunneling, the Lorentz factor, collision
detection/resolution, wave interference and electric field-line tracing.

JavaScript numbers are modelled as real numbers.  Where a routine can
produce the special values `Infinity` or `NaN` (the Lorentz factor on
superluminal input), its result is modelled by the sum type `JSNum`
making those outcomes explicit; everywhere else the inputs under
consideration keep the computation inside the reals.
-/

noncomputable section

namespace VQLab

/-- Reduced Planck constant as used in `physicsFormulas.js`. -/
def hbar : ℝ := 1.0545718e-34

/-- Embedding of `QuantumFormulas.tunnelingProbability` from
`src/utils/physicsFormulas.js`: if `energy >= barrierHeight` return 1,
else `exp(-2*kappa*barrierWidth)` with
`kappa = sqrt(2*mass*(barrierHeight-energy))/hbar`. -/
def tunnelingProbability (energy barrierHeight barrierWidth mass : ℝ) : ℝ :=
  if barrierHeight ≤ energy then 1
  else
    Real.exp (-2 * (Real.sqrt (2 * mass * (barrierHeight - energy)) / hbar) * barrierWidth)

/-- A JavaScript number outcome: a finite real, positive infinity, or NaN.
Used for routines whose source can produce non-finite values. -/
inductive JSNum where
  | val : ℝ → JSNum
  | posInf : JSNum
  | nan : JSNum
  deriving DecidableEq

/-- Embedding of `RelativityFormulas.gamma` from
`src/utils/physicsFormulas.js`: `beta = velocity / c`,
result `1 / sqrt(1 - beta^2)`.  In JavaScript `Math.sqrt` of a negative
number is `NaN` and `1/0` is `Infinity`; the three cases are made
explicit here. -/
def gamma (velocity c : ℝ) : JSNum :=
  if 1 - velocity / c * (velocity / c) < 0 then JSNum.nan
  else if 1 - velocity / c * (velocity / c) = 0 then JSNum.posInf
  else JSNum.val (1 / Real.sqrt (1 - velocity / c * (velocity / c)))

/-- A 3-D vector with real components, mirroring the plain `{x, y, z}`
records of the JavaScript source. -/
@[ext]
structure Vec3 where
  x : ℝ
  y : ℝ
  z : ℝ

/-- Euclidean dot product of two 3-D vectors. -/
def dot (a b : Vec3) : ℝ := a.x * b.x + a.y * b.y + a.z * b.z

/-- Shape tag of a body, mirroring the `'circle'` / `'box'` strings of
`collisionDetection.js`. -/
inductive Shape where
  | circle : Shape
  | box : Shape
  deriving DecidableEq

/-- Box extents, mirroring the `{width, height, depth}` records. -/
structure Size3 where
  width : ℝ
  height : ℝ
  depth : ℝ

/-- A physics body as consumed by `collisionDetection.js`.  Components that
the JavaScript reads with an `|| default` guard are kept as total fields
here; the `orDefault` helper reproduces the guard (JavaScript `x || d`
yields `d` when the number `x` is `0`). -/
structure Body where
  position : Vec3
  velocity : Vec3
  mass : ℝ
  radius : ℝ
  restitution : ℝ
  shape : Shape
  size : Size3

/-- JavaScript `x || d` on numbers: `d` when `x = 0`, else `x`. -/
def orDefault (x d : ℝ) : ℝ := if x = 0 then d else x

/-- Collision record returned by `checkCollision` / `checkCircleCollision`. -/
structure CollisionInfo where
  isColliding : Prop
  distance : ℝ
  normal : Vec3
  overlap : ℝ

/-- Embedding of `checkCircleCollision` from `collisionDetection.js`. -/
def checkCircleCollision (o1 o2 : Body) : CollisionInfo :=
  let dx := o2.position.x - o1.position.x
  let dy := o2.position.y - o1.position.y
  let dz := o2.position.z - o1.position.z
  let distance := Real.sqrt (dx * dx + dy * dy + dz * dz)
  let minDistance := orDefault o1.radius 0.5 + orDefault o2.radius 0.5
  { isColliding := distance < minDistance
    distance := distance
    normal := if 0 < distance then ⟨dx / distance, dy / distance, dz / distance⟩
              else ⟨1, 0, 0⟩
    overlap := max 0 (minDistance - distance) }

/-- Embedding of `checkBoxCollision` (axis-aligned overlap test) from
`collisionDetection.js`. -/
def checkBoxCollision (o1 o2 : Body) : Prop :=
  o1.position.x < o2.position.x + o2.size.width ∧
  o2.position.x < o1.position.x + o1.size.width ∧
  o1.position.y < o2.position.y + o2.size.height ∧
  o2.position.y < o1.position.y + o1.size.height ∧
  o1.position.z < o2.position.z + orDefault o2.size.depth 1 ∧
  o2.position.z < o1.position.z + orDefault o1.size.depth 1

/-- Embedding of the mixed circle–box branch of `checkCollision`:
closest point on the box to the circle center, with a derived normal. -/
def checkCircleBoxCollision (circleBody boxBody : Body) : CollisionInfo :=
  let closestX := max boxBody.position.x
    (min circleBody.position.x (boxBody.position.x + boxBody.size.width))
  let closestY := max boxBody.position.y
    (min circleBody.position.y (boxBody.position.y + boxBody.size.height))
  let dx := circleBody.position.x - closestX
  let dy := circleBody.position.y - closestY
  let distance := Real.sqrt (dx * dx + dy * dy)
  let radius := orDefault circleBody.radius 0.5
  { isColliding := distance < radius
    distance := distance
    normal := if 0 < distance then ⟨dx / distance, dy / distance, 0⟩ else ⟨1, 0, 0⟩
    overlap := max 0 (radius - distance) }

/-- Embedding of `checkCollision` (shape dispatch) from
`collisionDetection.js`.  For a box–box pair the record carries
`distance = 0`, a zero normal and zero overlap, exactly as in the source. -/
def checkCollision (o1 o2 : Body) : CollisionInfo :=
  match o1.shape, o2.shape with
  | Shape.circle, Shape.circle => checkCircleCollision o1 o2
  | Shape.box, Shape.box =>
      { isColliding := checkBoxCollision o1 o2
        distance := 0
        normal := ⟨0, 0, 0⟩
        overlap := 0 }
  | Shape.circle, Shape.box => checkCircleBoxCollision o1 o2
  | Shape.box, Shape.circle => checkCircleBoxCollision o2 o1

/-- Pair of post-resolution velocities returned by `resolveCollision`. -/
structure Velocities where
  velocity1 : Vec3
  velocity2 : Vec3

/-- Relative velocity of the pair along the collision normal, as computed
inside `resolveCollision`. -/
def velAlongNormal (o1 o2 : Body) (col : CollisionInfo) : ℝ :=
  (o2.velocity.x - o1.velocity.x) * col.normal.x +
  (o2.velocity.y - o1.velocity.y) * col.normal.y +
  (o2.velocity.z - o1.velocity.z) * col.normal.z

open Classical in
/-- Embedding of `resolveCollision` from `collisionDetection.js`: early
return when not colliding or separating, otherwise impulse resolution with
`e = min(e1, e2)` and `j = -(1+e)*velAlongNormal / (1/m1 + 1/m2)`. -/
def resolveCollision (o1 o2 : Body) (col : CollisionInfo) : Velocities :=
  if col.isColliding then
    if 0 < velAlongNormal o1 o2 col then ⟨o1.velocity, o2.velocity⟩
    else
      let m1 := orDefault o1.mass 1
      let m2 := orDefault o2.mass 1
      let e := min (orDefault o1.restitution 0.8) (orDefault o2.restitution 0.8)
      let j := -(1 + e) * velAlongNormal o1 o2 col / (1 / m1 + 1 / m2)
      ⟨⟨o1.velocity.x - j * col.normal.x / m1,
        o1.velocity.y - j * col.normal.y / m1,
        o1.velocity.z - j * col.normal.z / m1⟩,
       ⟨o2.velocity.x + j * col.normal.x / m2,
        o2.velocity.y + j * col.normal.y / m2,
        o2.velocity.z + j * col.normal.z / m2⟩⟩
  else ⟨o1.velocity, o2.velocity⟩

/-- Componentwise sum of two 3-D vectors. -/
def vadd (a b : Vec3) : Vec3 := ⟨a.x + b.x, a.y + b.y, a.z + b.z⟩

/-- Scalar multiple of a 3-D vector. -/
def smul3 (t : ℝ) (a : Vec3) : Vec3 := ⟨t * a.x, t * a.y, t * a.z⟩

/-- Concrete circle body moving right, used in witness instances. -/
def bodyA : Body :=
  { position := ⟨0, 0, 0⟩, velocity := ⟨1, 0, 0⟩, mass := 1, radius := 0.6
    restitution := 1, shape := Shape.circle, size := ⟨1, 1, 1⟩ }

/-- Concrete circle body moving left, overlapping `bodyA`. -/
def bodyB : Body :=
  { position := ⟨1, 0, 0⟩, velocity := ⟨-1, 0, 0⟩, mass := 1, radius := 0.6
    restitution := 1, shape := Shape.circle, size := ⟨1, 1, 1⟩ }

/-- Concrete box body used in witness instances. -/
def boxA : Body :=
  { position := ⟨0, 0, 0⟩, velocity := ⟨1, 0, 0⟩, mass := 1, radius := 0.5
    restitution := 0.5, shape := Shape.box, size := ⟨1, 1, 1⟩ }

/-- Concrete box body overlapping `boxA`. -/
def boxB : Body :=
  { position := ⟨0.5, 0, 0⟩, velocity := ⟨0, 0, 0⟩, mass := 1, radius := 0.5
    restitution := 0.5, shape := Shape.box, size := ⟨1, 1, 1⟩ }

/-- Concrete collision record with a separating configuration, used in a
witness instance. -/
def sepCol : CollisionInfo :=
  { isColliding := True, distance := 1, normal := ⟨1, 0, 0⟩, overlap := 0 }

/-- Componentwise difference of two 3-D vectors. -/
def vsub (a b : Vec3) : Vec3 := ⟨a.x - b.x, a.y - b.y, a.z - b.z⟩

/-- Euclidean length of a 3-D vector, as computed by the source
(`Math.sqrt` of the sum of squared components). -/
def norm3 (v : Vec3) : ℝ := Real.sqrt (v.x * v.x + v.y * v.y + v.z * v.z)

/-- Euclidean distance between two 3-D points (`Vector3.distanceTo`). -/
def dist3 (a b : Vec3) : ℝ := norm3 (vsub a b)

/-- A 2-D point with real components. -/
structure Vec2 where
  x : ℝ
  y : ℝ

/-- A wave source as consumed by `calculateInterference` in
`WaveInterferenceVisualization.jsx`. -/
structure WaveSource where
  position : Vec2
  amplitude : ℝ
  wavelength : ℝ
  frequency : ℝ
  phase : ℝ

/-- Distance from the evaluation point to a wave source. -/
def waveDistance (x y : ℝ) (s : WaveSource) : ℝ :=
  Real.sqrt ((x - s.position.x) * (x - s.position.x) +
    (y - s.position.y) * (y - s.position.y))

/-- Per-source wave phase:
`2*pi*(distance/wavelength - frequency*time) + phase`. -/
def wavePhase (x y : ℝ) (s : WaveSource) (time : ℝ) : ℝ :=
  2 * Real.pi * (waveDistance x y s / s.wavelength - s.frequency * time) + s.phase

/-- Per-source amplitude at the evaluation point:
`amplitude / (1 + distance*0.1)`. -/
def ampAtPoint (x y : ℝ) (s : WaveSource) : ℝ :=
  s.amplitude / (1 + waveDistance x y s * 0.1)

/-- Result record of `calculateInterference`. -/
structure Interference where
  amplitude : ℝ
  intensity : ℝ

/-- Embedding of `calculateInterference` from
`WaveInterferenceVisualization.jsx`: the amplitude is the signed sum of
`a_i*sin(phi_i)`; for more than one source the intensity is the squared
magnitude of the phasor sum, otherwise the square of the amplitude. -/
def calculateInterference (x y : ℝ) (sources : List WaveSource) (time : ℝ) :
    Interference :=
  let totalAmplitude :=
    (sources.map (fun s => ampAtPoint x y s * Real.sin (wavePhase x y s time))).sum
  let realPart :=
    (sources.map (fun s => ampAtPoint x y s * Real.cos (wavePhase x y s time))).sum
  let imagPart :=
    (sources.map (fun s => ampAtPoint x y s * Real.sin (wavePhase x y s time))).sum
  { amplitude := totalAmplitude
    intensity := if 1 < sources.length then realPart * realPart + imagPart * imagPart
                 else totalAmplitude * totalAmplitude }

/-- A point charge as consumed by `calculateFieldLine`. -/
structure Charge where
  position : Vec3
  q : ℝ

/-- Coulomb constant as used in the source. -/
def kCoulomb : ℝ := 8.99e9

open Classical in
/-- Coulomb field contribution of one charge at a point, as computed inside
`calculateFieldLine`: zero when the point is within `0.3` of the charge
(the contribution is skipped), otherwise `(k*q/r^2)` times the unit vector
from the charge to the point. -/
def chargeContribution (p : Vec3) (c : Charge) : Vec3 :=
  let dx := p.x - c.position.x
  let dy := p.y - c.position.y
  let dz := p.z - c.position.z
  let distanceSq := dx * dx + dy * dy + dz * dz
  if Real.sqrt distanceSq < 0.3 then ⟨0, 0, 0⟩
  else ⟨kCoulomb * c.q / distanceSq * (dx / Real.sqrt distanceSq),
        kCoulomb * c.q / distanceSq * (dy / Real.sqrt distanceSq),
        kCoulomb * c.q / distanceSq * (dz / Real.sqrt distanceSq)⟩

/-- Superposed field at a point: sum of the per-charge contributions, in
list order, exactly as the `forEach` accumulation in the source. -/
def fieldAt (p : Vec3) (charges : List Charge) : Vec3 :=
  charges.foldl (fun acc c => vadd acc (chargeContribution p c)) ⟨0, 0, 0⟩

/-- Some charge lies within `0.3` units of the point (the absorption test
applied to the candidate next point). -/
def tooCloseToAny (p : Vec3) (charges : List Charge) : Prop :=
  ∃ c ∈ charges, dist3 p c.position < 0.3

/-- Why a traced field line stopped.  The JavaScript loop exits through
one of four breaks: field magnitude below `0.01`, the next point within
`0.3` of a charge, the next point outside the `|x|,|y| ≤ 15` box (the
conditions are tested in this order), or the step budget running out. -/
inductive StopReason where
  | weakField : StopReason
  | absorbed : StopReason
  | outOfBounds : StopReason
  | maxStepsReached : StopReason
  deriving DecidableEq

open Classical in
/-- One-loop body of `calculateFieldLine`, recursing on the remaining step
budget.  Returns the list of points appended after the current point,
together with the reason the loop stopped. -/
def fieldLineAux : ℕ → Vec3 → List Charge → ℝ → List Vec3 × StopReason
  | 0, _, _, _ => ([], StopReason.maxStepsReached)
  | Nat.succ n, current, charges, stepSize =>
    let f := fieldAt current charges
    if norm3 f < 0.01 then ([], StopReason.weakField)
    else
      let next : Vec3 := ⟨current.x + stepSize / norm3 f * f.x,
                          current.y + stepSize / norm3 f * f.y,
                          current.z + stepSize / norm3 f * f.z⟩
      if tooCloseToAny next charges then ([], StopReason.absorbed)
      else if 15 < |next.x| ∨ 15 < |next.y| then ([], StopReason.outOfBounds)
      else
        let r := fieldLineAux n next charges stepSize
        (next :: r.1, r.2)

/-- Embedding of `calculateFieldLine` from the electric-field
visualization: the traced point sequence (starting with the seed point)
and the reason the trace stopped. -/
def calculateFieldLine (startPoint : Vec3) (charges : List Charge)
    (maxSteps : ℕ) (stepSize : ℝ) : List Vec3 × StopReason :=
  let r := fieldLineAux maxSteps startPoint charges stepSize
  (startPoint :: r.1, r.2)

/-- Concrete wave source at the origin used in a counterexample instance. -/
def waveSrcO : WaveSource :=
  { position := ⟨0, 0⟩, amplitude := 1, wavelength := 1, frequency := 1, phase := 0 }

/-- Concrete weak charge used in a counterexample instance. -/
def weakCharge : Charge := { position := ⟨0, 0, 0⟩, q := 1e-15 }

end VQLab

namespace VQLab

/-- C1: tunnelingProbability returns exactly 1 when `energy ≥ barrierHeight`,
otherwise `exp(-2*kappa*barrierWidth)` with
`kappa = sqrt(2*mass*(barrierHeight-energy))/hbar`; consequently the
reflection probability `1 - T` satisfies `T + R = 1` whenever
`barrierWidth > 0` and `mass > 0`. -/
theorem tunneling_formula_and_unitarity (energy barrierHeight barrierWidth mass : ℝ)
    (hw : 0 < barrierWidth) (hm : 0 < mass) :
    (barrierHeight ≤ energy →
      tunnelingProbability energy barrierHeight barrierWidth mass = 1) ∧
    (energy < barrierHeight →
      tunnelingProbability energy barrierHeight barrierWidth mass =
        Real.exp (-2 * (Real.sqrt (2 * mass * (barrierHeight - energy)) / hbar)
          * barrierWidth)) ∧
    tunnelingProbability energy barrierHeight barrierWidth mass +
      (1 - tunnelingProbability energy barrierHeight barrierWidth mass) = 1 := by
  refine ⟨fun h => if_pos h, fun h => ?_, by ring⟩
  rw [tunnelingProbability, if_neg (not_le.mpr h)]

/-- Witness for C1 at `energy = 2, barrierHeight = 1, barrierWidth = 1, mass = 1`. -/
theorem tunneling_formula_and_unitarity_witness :
    (0:ℝ) < 1 ∧ (0:ℝ) < 1 ∧
    (((1:ℝ) ≤ 2 → tunnelingProbability 2 1 1 1 = 1) ∧
     ((2:ℝ) < 1 → tunnelingProbability 2 1 1 1 =
        Real.exp (-2 * (Real.sqrt (2 * 1 * (1 - 2)) / hbar) * 1)) ∧
     tunnelingProbability 2 1 1 1 + (1 - tunnelingProbability 2 1 1 1) = 1) :=
  ⟨one_pos, one_pos, tunneling_formula_and_unitarity 2 1 1 1 one_pos one_pos⟩

/-- C3 counterexample: at `energy = 0, barrierHeight = 1, barrierWidth = -1,
mass = 1` (a degenerate input with `barrierWidth ≤ 0`), the code raises no
error and returns a value strictly greater than 1 — it neither rejects the
input nor clamps the result to `[0,1]`. -/
theorem tunneling_negative_width_not_rejected :
    1 < tunnelingProbability 0 1 (-1) 1 := by
  rw [tunnelingProbability, if_neg (by norm_num)]
  have hbarpos : (0:ℝ) < hbar := by rw [hbar]; norm_num
  have hs : (0:ℝ) < Real.sqrt (2 * 1 * (1 - 0)) := by
    rw [show (2:ℝ) * 1 * (1 - 0) = 2 by norm_num]
    exact Real.sqrt_pos.mpr (by norm_num)
  have hx : (0:ℝ) < -2 * (Real.sqrt (2 * 1 * (1 - 0)) / hbar) * (-1) := by
    have : -2 * (Real.sqrt (2 * 1 * (1 - 0)) / hbar) * (-1)
        = 2 * (Real.sqrt (2 * 1 * (1 - 0)) / hbar) := by ring
    rw [this]
    positivity
  calc (1:ℝ) < -2 * (Real.sqrt (2 * 1 * (1 - 0)) / hbar) * (-1) + 1 := by linarith
    _ ≤ Real.exp (-2 * (Real.sqrt (2 * 1 * (1 - 0)) / hbar) * (-1)) := by
        have := Real.add_one_le_exp (-2 * (Real.sqrt (2 * 1 * (1 - 0)) / hbar) * (-1))
        linarith

/-- C3 amended: tunnelingProbability performs no rejection and no clamping:
for every sub-barrier input (`energy < barrierHeight`, `mass ≥ 0`) it
returns `exp(-2*kappa*barrierWidth)` whatever the sign of `barrierWidth`;
when moreover `barrierWidth > 0` the returned value already lies in
`(0, 1]` without any clamp. -/
theorem tunneling_no_guard_and_range (energy barrierHeight barrierWidth mass : ℝ)
    (hE : energy < barrierHeight) (hm : 0 ≤ mass) :
    tunnelingProbability energy barrierHeight barrierWidth mass =
      Real.exp (-2 * (Real.sqrt (2 * mass * (barrierHeight - energy)) / hbar)
        * barrierWidth) ∧
    (0 < barrierWidth →
      0 < tunnelingProbability energy barrierHeight barrierWidth mass ∧
      tunnelingProbability energy barrierHeight barrierWidth mass ≤ 1) := by
  have hform : tunnelingProbability energy barrierHeight barrierWidth mass =
      Real.exp (-2 * (Real.sqrt (2 * mass * (barrierHeight - energy)) / hbar)
        * barrierWidth) := by
    rw [tunnelingProbability, if_neg (not_le.mpr hE)]
  refine ⟨hform, fun hw => ?_⟩
  rw [hform]
  refine ⟨Real.exp_pos _, ?_⟩
  have hbarpos : (0:ℝ) < hbar := by rw [hbar]; norm_num
  have hs : 0 ≤ Real.sqrt (2 * mass * (barrierHeight - energy)) := Real.sqrt_nonneg _
  have hle : -2 * (Real.sqrt (2 * mass * (barrierHeight - energy)) / hbar)
      * barrierWidth ≤ 0 := by
    have h1 : 0 ≤ Real.sqrt (2 * mass * (barrierHeight - energy)) / hbar :=
      div_nonneg hs (le_of_lt hbarpos)
    nlinarith
  calc Real.exp (-2 * (Real.sqrt (2 * mass * (barrierHeight - energy)) / hbar)
        * barrierWidth) ≤ Real.exp 0 := Real.exp_le_exp.mpr hle
    _ = 1 := Real.exp_zero

/-- Witness for the amended C3 at `energy = 0, barrierHeight = 1,
barrierWidth = 1, mass = 1`. -/
theorem tunneling_no_guard_and_range_witness :
    (0:ℝ) < 1 ∧ (0:ℝ) ≤ 1 ∧
    (tunnelingProbability 0 1 1 1 =
      Real.exp (-2 * (Real.sqrt (2 * 1 * (1 - 0)) / hbar) * 1) ∧
    ((0:ℝ) < 1 →
      0 < tunnelingProbability 0 1 1 1 ∧ tunnelingProbability 0 1 1 1 ≤ 1)) :=
  ⟨one_pos, zero_le_one, tunneling_no_guard_and_range 0 1 1 1 one_pos zero_le_one⟩

/-- C4 counterexample: at `velocity = 6e8, c = 3e8` (so `|beta| = 2 ≥ 1`),
`gamma` raises no error: it silently returns NaN to the caller. -/
theorem gamma_superluminal_returns_nan : gamma (6e8) (3e8) = JSNum.nan := by
  rw [gamma, if_pos]
  norm_num

/-- C4 amended: the Lorentz-factor code never raises a domain error for
`|beta| ≥ 1`; instead it silently returns the non-finite value `Infinity`
when `|velocity/c| = 1` and `NaN` when `|velocity/c| > 1`. -/
theorem gamma_no_domain_error (velocity c : ℝ) :
    (|velocity / c| = 1 → gamma velocity c = JSNum.posInf) ∧
    (1 < |velocity / c| → gamma velocity c = JSNum.nan) := by
  constructor
  · intro h
    have hsq : velocity / c * (velocity / c) = 1 := by
      have := abs_mul_abs_self (velocity / c)
      rw [h] at this
      linarith
    rw [gamma, if_neg (by rw [hsq]; norm_num), if_pos (by rw [hsq]; ring)]
  · intro h
    have hsq : 1 < velocity / c * (velocity / c) := by
      have h2 := abs_mul_abs_self (velocity / c)
      nlinarith [abs_nonneg (velocity / c)]
    rw [gamma, if_pos (by linarith)]

/-- Witness for the amended C4 at `velocity = 3e8, c = 3e8` (`beta = 1`). -/
theorem gamma_no_domain_error_witness :
    |((3e8:ℝ) / 3e8)| = 1 ∧ gamma (3e8) (3e8) = JSNum.posInf :=
  ⟨by norm_num, (gamma_no_domain_error (3e8) (3e8)).1 (by norm_num)⟩

/-- The collision normal produced by `checkCircleCollision` is always a
unit vector: either the center offset divided by its length, or the
fallback `(1,0,0)` when the centers coincide. -/
theorem circle_normal_unit (o1 o2 : Body) :
    dot (checkCircleCollision o1 o2).normal (checkCircleCollision o1 o2).normal = 1 := by
  have hs : 0 ≤ (o2.position.x - o1.position.x) * (o2.position.x - o1.position.x) +
      (o2.position.y - o1.position.y) * (o2.position.y - o1.position.y) +
      (o2.position.z - o1.position.z) * (o2.position.z - o1.position.z) :=
    add_nonneg (add_nonneg (mul_self_nonneg _) (mul_self_nonneg _)) (mul_self_nonneg _)
  by_cases h : 0 < Real.sqrt ((o2.position.x - o1.position.x) * (o2.position.x - o1.position.x) +
      (o2.position.y - o1.position.y) * (o2.position.y - o1.position.y) +
      (o2.position.z - o1.position.z) * (o2.position.z - o1.position.z))
  · have hpos : 0 < (o2.position.x - o1.position.x) * (o2.position.x - o1.position.x) +
        (o2.position.y - o1.position.y) * (o2.position.y - o1.position.y) +
        (o2.position.z - o1.position.z) * (o2.position.z - o1.position.z) :=
      Real.sqrt_pos.mp h
    have hsq : Real.sqrt ((o2.position.x - o1.position.x) * (o2.position.x - o1.position.x) +
        (o2.position.y - o1.position.y) * (o2.position.y - o1.position.y) +
        (o2.position.z - o1.position.z) * (o2.position.z - o1.position.z)) *
        Real.sqrt ((o2.position.x - o1.position.x) * (o2.position.x - o1.position.x) +
        (o2.position.y - o1.position.y) * (o2.position.y - o1.position.y) +
        (o2.position.z - o1.position.z) * (o2.position.z - o1.position.z)) =
        (o2.position.x - o1.position.x) * (o2.position.x - o1.position.x) +
        (o2.position.y - o1.position.y) * (o2.position.y - o1.position.y) +
        (o2.position.z - o1.position.z) * (o2.position.z - o1.position.z) :=
      Real.mul_self_sqrt hs
    simp only [checkCircleCollision, dot, if_pos h]
    field_simp
  · simp only [checkCircleCollision, dot, if_neg h]
    norm_num

/-- C8: whenever the relative velocity along the collision normal is
non-negative (bodies separating or parallel, including the
zero-relative-velocity case), `resolveCollision` returns the input
velocities unchanged. -/
theorem resolve_separating_noop (o1 o2 : Body) (col : CollisionInfo)
    (h : 0 ≤ velAlongNormal o1 o2 col) :
    resolveCollision o1 o2 col = ⟨o1.velocity, o2.velocity⟩ := by
  unfold resolveCollision
  by_cases hc : col.isColliding
  · rw [if_pos hc]
    rcases eq_or_lt_of_le h with heq | hlt
    · rw [if_neg (by rw [← heq]; exact lt_irrefl 0)]
      simp [← heq]
    · rw [if_pos hlt]
  · rw [if_neg hc]

/-- Witness for C8: concrete separating circle pair with an explicit
collision record. -/
theorem resolve_separating_noop_witness :
    0 ≤ velAlongNormal bodyB bodyA sepCol ∧
    resolveCollision bodyB bodyA sepCol = ⟨bodyB.velocity, bodyA.velocity⟩ := by
  have h : 0 ≤ velAlongNormal bodyB bodyA sepCol := by
    norm_num [velAlongNormal, bodyA, bodyB, sepCol]
  exact ⟨h, resolve_separating_noop bodyB bodyA sepCol h⟩

/-- C2: for two colliding circle bodies of equal mass `m > 0` and
restitution 1 that are approaching, resolution exactly swaps the
normal components of the two velocities, and conserves both total
momentum and total kinetic energy exactly. -/
theorem circle_equal_mass_elastic_swap (o1 o2 : Body) (m : ℝ) (hm : 0 < m)
    (hm1 : o1.mass = m) (hm2 : o2.mass = m)
    (he1 : o1.restitution = 1) (he2 : o2.restitution = 1)
    (hcol : (checkCircleCollision o1 o2).isColliding)
    (happ : velAlongNormal o1 o2 (checkCircleCollision o1 o2) ≤ 0) :
    dot (resolveCollision o1 o2 (checkCircleCollision o1 o2)).velocity1
      (checkCircleCollision o1 o2).normal =
      dot o2.velocity (checkCircleCollision o1 o2).normal ∧
    dot (resolveCollision o1 o2 (checkCircleCollision o1 o2)).velocity2
      (checkCircleCollision o1 o2).normal =
      dot o1.velocity (checkCircleCollision o1 o2).normal ∧
    vadd (smul3 m (resolveCollision o1 o2 (checkCircleCollision o1 o2)).velocity1)
      (smul3 m (resolveCollision o1 o2 (checkCircleCollision o1 o2)).velocity2) =
      vadd (smul3 m o1.velocity) (smul3 m o2.velocity) ∧
    1 / 2 * m * dot (resolveCollision o1 o2 (checkCircleCollision o1 o2)).velocity1
        (resolveCollision o1 o2 (checkCircleCollision o1 o2)).velocity1 +
      1 / 2 * m * dot (resolveCollision o1 o2 (checkCircleCollision o1 o2)).velocity2
        (resolveCollision o1 o2 (checkCircleCollision o1 o2)).velocity2 =
      1 / 2 * m * dot o1.velocity o1.velocity +
        1 / 2 * m * dot o2.velocity o2.velocity := by
  have hmne : m ≠ 0 := ne_of_gt hm
  have hunit : dot (checkCircleCollision o1 o2).normal
      (checkCircleCollision o1 o2).normal = 1 := circle_normal_unit o1 o2
  set col := checkCircleCollision o1 o2 with hcoldef
  set d := velAlongNormal o1 o2 col with hddef
  have hd : d = (o2.velocity.x - o1.velocity.x) * col.normal.x +
      (o2.velocity.y - o1.velocity.y) * col.normal.y +
      (o2.velocity.z - o1.velocity.z) * col.normal.z := hddef
  have hunit' : col.normal.x * col.normal.x + col.normal.y * col.normal.y +
      col.normal.z * col.normal.z = 1 := hunit
  have hres : resolveCollision o1 o2 col =
      ⟨⟨o1.velocity.x + d * col.normal.x, o1.velocity.y + d * col.normal.y,
        o1.velocity.z + d * col.normal.z⟩,
       ⟨o2.velocity.x - d * col.normal.x, o2.velocity.y - d * col.normal.y,
        o2.velocity.z - d * col.normal.z⟩⟩ := by
    rw [resolveCollision, if_pos hcol, if_neg (not_lt.mpr happ)]
    have hm1' : orDefault o1.mass 1 = m := by rw [hm1, orDefault, if_neg hmne]
    have hm2' : orDefault o2.mass 1 = m := by rw [hm2, orDefault, if_neg hmne]
    have he1' : orDefault o1.restitution 0.8 = 1 := by
      rw [he1, orDefault, if_neg one_ne_zero]
    have he2' : orDefault o2.restitution 0.8 = 1 := by
      rw [he2, orDefault, if_neg one_ne_zero]
    simp only [hm1', hm2', he1', he2', min_self, ← hddef, Velocities.mk.injEq,
      Vec3.mk.injEq]
    refine ⟨⟨?_, ?_, ?_⟩, ?_, ?_, ?_⟩ <;> (field_simp; ring)
  rw [hres]
  simp only [dot, vadd, smul3, Velocities.mk.injEq, Vec3.mk.injEq]
  refine ⟨?_, ?_, ⟨by ring, by ring, by ring⟩, ?_⟩
  · linear_combination d * hunit' + hd
  · linear_combination (-d) * hunit' - hd
  · linear_combination (m * d ^ 2) * hunit' + (m * d) * hd

/-- Witness for C2: two unit-mass, restitution-1 circles in a head-on
overlap, velocities `(1,0,0)` and `(-1,0,0)`. -/
theorem circle_equal_mass_elastic_swap_witness :
    (checkCircleCollision bodyA bodyB).isColliding ∧
    velAlongNormal bodyA bodyB (checkCircleCollision bodyA bodyB) ≤ 0 ∧
    (dot (resolveCollision bodyA bodyB (checkCircleCollision bodyA bodyB)).velocity1
      (checkCircleCollision bodyA bodyB).normal =
      dot bodyB.velocity (checkCircleCollision bodyA bodyB).normal ∧
    dot (resolveCollision bodyA bodyB (checkCircleCollision bodyA bodyB)).velocity2
      (checkCircleCollision bodyA bodyB).normal =
      dot bodyA.velocity (checkCircleCollision bodyA bodyB).normal ∧
    vadd (smul3 1 (resolveCollision bodyA bodyB (checkCircleCollision bodyA bodyB)).velocity1)
      (smul3 1 (resolveCollision bodyA bodyB (checkCircleCollision bodyA bodyB)).velocity2) =
      vadd (smul3 1 bodyA.velocity) (smul3 1 bodyB.velocity) ∧
    1 / 2 * 1 * dot (resolveCollision bodyA bodyB (checkCircleCollision bodyA bodyB)).velocity1
        (resolveCollision bodyA bodyB (checkCircleCollision bodyA bodyB)).velocity1 +
      1 / 2 * 1 * dot (resolveCollision bodyA bodyB (checkCircleCollision bodyA bodyB)).velocity2
        (resolveCollision bodyA bodyB (checkCircleCollision bodyA bodyB)).velocity2 =
      1 / 2 * 1 * dot bodyA.velocity bodyA.velocity +
        1 / 2 * 1 * dot bodyB.velocity bodyB.velocity) := by
  have hcol : (checkCircleCollision bodyA bodyB).isColliding := by
    simp only [checkCircleCollision, bodyA, bodyB, orDefault]
    norm_num
  have happ : velAlongNormal bodyA bodyB (checkCircleCollision bodyA bodyB) ≤ 0 := by
    simp only [velAlongNormal, checkCircleCollision, bodyA, bodyB, orDefault]
    norm_num
  exact ⟨hcol, happ,
    circle_equal_mass_elastic_swap bodyA bodyB 1 one_pos rfl rfl rfl rfl hcol happ⟩

/-- C10: the box–box collision record carries a zero normal, so the
computed impulse vanishes and box–box resolution always returns the input
velocities unchanged. -/
theorem box_box_resolution_noop (o1 o2 : Body)
    (h1 : o1.shape = Shape.box) (h2 : o2.shape = Shape.box)
    (hcol : (checkCollision o1 o2).isColliding) :
    resolveCollision o1 o2 (checkCollision o1 o2) = ⟨o1.velocity, o2.velocity⟩ := by
  have hcc : checkCollision o1 o2 =
      { isColliding := checkBoxCollision o1 o2, distance := 0
        normal := ⟨0, 0, 0⟩, overlap := 0 } := by
    rw [checkCollision, h1, h2]
  rw [hcc] at hcol ⊢
  rw [resolveCollision, if_pos hcol]
  have hv : velAlongNormal o1 o2
      { isColliding := checkBoxCollision o1 o2, distance := 0
        normal := ⟨0, 0, 0⟩, overlap := 0 } = 0 := by
    simp [velAlongNormal]
  rw [if_neg (by rw [hv]; exact lt_irrefl 0)]
  simp [hv]

/-- Witness for C10: two overlapping unit boxes. -/
theorem box_box_resolution_noop_witness :
    boxA.shape = Shape.box ∧ boxB.shape = Shape.box ∧
    (checkCollision boxA boxB).isColliding ∧
    resolveCollision boxA boxB (checkCollision boxA boxB) =
      ⟨boxA.velocity, boxB.velocity⟩ := by
  have hcol : (checkCollision boxA boxB).isColliding := by
    rw [show checkCollision boxA boxB =
        { isColliding := checkBoxCollision boxA boxB, distance := 0
          normal := ⟨0, 0, 0⟩, overlap := 0 } from rfl]
    simp only [checkBoxCollision, boxA, boxB, orDefault]
    norm_num
  exact ⟨rfl, rfl, hcol, box_box_resolution_noop boxA boxB rfl rfl hcol⟩

/-- C6: two identical wave sources (`amplitude=1, wavelength=1,
frequency=1, phase=0`) placed symmetrically about the origin give, at the
origin at time 0, an intensity of exactly `(2*a)^2` where
`a = 1/(1 + 0.1*d)` is the per-source amplitude at the origin and `d` the
common source distance — pure constructive interference. -/
theorem two_symmetric_sources_constructive (px py : ℝ) :
    (calculateInterference 0 0
      [⟨⟨px, py⟩, 1, 1, 1, 0⟩, ⟨⟨-px, -py⟩, 1, 1, 1, 0⟩] 0).intensity =
      (2 * (1 / (1 + 0.1 * Real.sqrt (px * px + py * py)))) ^ 2 := by
  have h1 : waveDistance 0 0 ⟨⟨px, py⟩, 1, 1, 1, 0⟩ =
      Real.sqrt (px * px + py * py) := by
    simp only [waveDistance]
    congr 1
    ring
  have h2 : waveDistance 0 0 ⟨⟨-px, -py⟩, 1, 1, 1, 0⟩ =
      Real.sqrt (px * px + py * py) := by
    simp only [waveDistance]
    congr 1
    ring
  simp only [calculateInterference, List.map_cons, List.map_nil, List.sum_cons,
    List.sum_nil, List.length_cons, List.length_nil, ampAtPoint, wavePhase, h1, h2]
  rw [if_pos (by norm_num)]
  have hpyth := Real.sin_sq_add_cos_sq
    (2 * Real.pi * (Real.sqrt (px * px + py * py) / 1 - 1 * 0) + 0)
  linear_combination (4 * (1 / (1 + Real.sqrt (px * px + py * py) * 0.1)) ^ 2) * hpyth

/-- C7 counterexample: a single unit source at the origin, evaluated at
the origin at time `1/4`, yields amplitude `sin(-pi/2) = -1 < 0`: the
amplitude returned by `calculateInterference` is a signed quantity and is
not always non-negative. -/
theorem interference_amplitude_negative :
    (calculateInterference 0 0 [waveSrcO] (1 / 4)).amplitude < 0 := by
  have hd : waveDistance 0 0 waveSrcO = 0 := by
    simp [waveDistance, waveSrcO]
  have hphi : wavePhase 0 0 waveSrcO (1 / 4) = -(Real.pi / 2) := by
    rw [wavePhase, hd]
    simp only [waveSrcO]
    ring
  have ha : ampAtPoint 0 0 waveSrcO = 1 := by
    rw [ampAtPoint, hd]
    simp [waveSrcO]
  have hs : Real.sin (-(Real.pi / 2)) = -1 := by
    rw [Real.sin_neg, Real.sin_pi_div_two]
  simp only [calculateInterference, List.map_cons, List.map_nil, List.sum_cons,
    List.sum_nil, hphi, ha, hs]
  norm_num

/-- C7 amended: the intensity returned by `calculateInterference` is
non-negative for every point, source list (in particular those with
non-negative amplitude fields) and time; the amplitude, being a signed
instantaneous superposition, can be negative. -/
theorem interference_intensity_nonneg (x y : ℝ) (sources : List WaveSource)
    (time : ℝ) (h : ∀ s ∈ sources, 0 ≤ s.amplitude) :
    0 ≤ (calculateInterference x y sources time).intensity := by
  simp only [calculateInterference]
  split_ifs
  · exact add_nonneg (mul_self_nonneg _) (mul_self_nonneg _)
  · exact mul_self_nonneg _

/-- Witness for the amended C7 on the empty source list. -/
theorem interference_intensity_nonneg_witness :
    (∀ s ∈ ([] : List WaveSource), 0 ≤ s.amplitude) ∧
    0 ≤ (calculateInterference 0 0 [] 0).intensity :=
  ⟨by simp, interference_intensity_nonneg 0 0 [] 0 (by simp)⟩

/-- Adding the zero vector on the left is the identity. -/
theorem vadd_zero_left (v : Vec3) : vadd ⟨0, 0, 0⟩ v = v := by
  cases v
  simp [vadd]

/-- Adding the zero vector on the right is the identity. -/
theorem vadd_zero_right (v : Vec3) : vadd v ⟨0, 0, 0⟩ = v := by
  cases v
  simp [vadd]

/-- The norm scales by the absolute value of a scalar factor. -/
theorem norm3_smul3 (t : ℝ) (v : Vec3) : norm3 (smul3 t v) = |t| * norm3 v := by
  simp only [norm3, smul3]
  rw [show t * v.x * (t * v.x) + t * v.y * (t * v.y) + t * v.z * (t * v.z) =
      t ^ 2 * (v.x * v.x + v.y * v.y + v.z * v.z) from by ring]
  rw [Real.sqrt_mul (sq_nonneg t), Real.sqrt_sq_eq_abs]

/-- Folding vanishing contributions leaves the accumulator unchanged. -/
theorem foldl_contrib_id (p : Vec3) :
    ∀ (l : List Charge), (∀ c ∈ l, chargeContribution p c = ⟨0, 0, 0⟩) →
      ∀ acc, l.foldl (fun acc c => vadd acc (chargeContribution p c)) acc = acc
  | [], _, _ => rfl
  | c :: cs, h, acc => by
    rw [List.foldl_cons, h c (List.mem_cons_self c cs), vadd_zero_right]
    exact foldl_contrib_id p cs (fun d hd => h d (List.mem_cons_of_mem c hd)) acc

/-- When every charge lies within the `0.3` floor distance of the point,
every contribution is skipped and the superposed field is zero. -/
theorem fieldAt_zero_of_all_close (p : Vec3) (charges : List Charge)
    (h : ∀ c ∈ charges, dist3 p c.position < 0.3) :
    fieldAt p charges = ⟨0, 0, 0⟩ := by
  rw [fieldAt]
  refine foldl_contrib_id p charges (fun c hc => ?_) ⟨0, 0, 0⟩
  have hd := h c hc
  simp only [dist3, norm3, vsub] at hd
  simp only [chargeContribution]
  rw [if_pos hd]

/-- The zero vector has norm zero, which is below the weak-field cutoff. -/
theorem norm3_zero_small : norm3 (⟨0, 0, 0⟩ : Vec3) < 0.01 := by
  simp only [norm3]
  rw [show (0:ℝ) * 0 + 0 * 0 + 0 * 0 = 0 from by ring, Real.sqrt_zero]
  norm_num

/-- C9: if every charge lies within the `0.3` floor distance of the start
point, the trace terminates immediately and the returned sequence is the
single start point — a valid, non-error result. -/
theorem all_charges_at_start_single_point (start : Vec3) (charges : List Charge)
    (maxSteps : ℕ) (stepSize : ℝ)
    (h : ∀ c ∈ charges, dist3 start c.position < 0.3) :
    (calculateFieldLine start charges maxSteps stepSize).1 = [start] := by
  cases maxSteps with
  | zero => rfl
  | succ n =>
    have hf : fieldAt start charges = ⟨0, 0, 0⟩ := fieldAt_zero_of_all_close start charges h
    have heq : fieldLineAux (Nat.succ n) start charges stepSize =
        ([], StopReason.weakField) := by
      rw [fieldLineAux, hf, if_pos norm3_zero_small]
    simp only [calculateFieldLine, heq]

/-- Witness for C9: a single charge exactly at the start point. -/
theorem all_charges_at_start_single_point_witness :
    (∀ c ∈ [weakCharge], dist3 ⟨0, 0, 0⟩ c.position < 0.3) ∧
    (calculateFieldLine ⟨0, 0, 0⟩ [weakCharge] 200 0.1).1 = [⟨0, 0, 0⟩] := by
  have h : ∀ c ∈ [weakCharge], dist3 (⟨0, 0, 0⟩ : Vec3) c.position < 0.3 := by
    intro c hc
    rw [List.mem_singleton] at hc
    subst hc
    simp only [dist3, norm3, vsub, weakCharge]
    rw [show ((0:ℝ) - 0) * (0 - 0) + ((0:ℝ) - 0) * (0 - 0) + ((0:ℝ) - 0) * (0 - 0) = 0
      from by ring, Real.sqrt_zero]
    norm_num
  exact ⟨h, all_charges_at_start_single_point ⟨0, 0, 0⟩ [weakCharge] 200 0.1 h⟩

/-- Closed form of the field of a single charge at a point at least `0.3`
away: a scalar multiple of the offset from the charge to the point. -/
theorem fieldAt_single_charge (p : Vec3) (c : Charge)
    (hfar : ¬ dist3 p c.position < 0.3) :
    fieldAt p [c] = smul3 (kCoulomb * c.q /
        ((p.x - c.position.x) * (p.x - c.position.x) +
         (p.y - c.position.y) * (p.y - c.position.y) +
         (p.z - c.position.z) * (p.z - c.position.z)) / dist3 p c.position)
      (vsub p c.position) := by
  have hfar' : ¬ Real.sqrt ((p.x - c.position.x) * (p.x - c.position.x) +
      (p.y - c.position.y) * (p.y - c.position.y) +
      (p.z - c.position.z) * (p.z - c.position.z)) < 0.3 := by
    simpa only [dist3, norm3, vsub] using hfar
  show vadd ⟨0, 0, 0⟩ (chargeContribution p c) = _
  rw [vadd_zero_left]
  simp only [chargeContribution, dist3, norm3, vsub, smul3]
  rw [if_neg hfar']
  simp only [Vec3.mk.injEq]
  exact ⟨by ring, by ring, by ring⟩

/-- The distance from a point to a charge position is positive once it is
at least `0.3`. -/
theorem dist3_pos_of_far (p : Vec3) (c : Charge)
    (hfar : ¬ dist3 p c.position < 0.3) : 0 < dist3 p c.position :=
  lt_of_lt_of_le (by norm_num) (not_lt.mp hfar)

/-- The squared-offset sum is positive once the point is at least `0.3`
from the charge. -/
theorem offsetSq_pos_of_far (p : Vec3) (c : Charge)
    (hfar : ¬ dist3 p c.position < 0.3) :
    0 < (p.x - c.position.x) * (p.x - c.position.x) +
        (p.y - c.position.y) * (p.y - c.position.y) +
        (p.z - c.position.z) * (p.z - c.position.z) := by
  have hd0 := dist3_pos_of_far p c hfar
  simp only [dist3, norm3, vsub] at hd0
  exact Real.sqrt_pos.mp hd0

/-- The Coulomb constant is positive. -/
theorem kCoulomb_pos : (0:ℝ) < kCoulomb := by
  rw [kCoulomb]
  norm_num

/-- Norm of the single-charge field: the positive scale factor times the
distance. -/
theorem norm3_fieldAt_single (p : Vec3) (c : Charge) (hq : 0 < c.q)
    (hfar : ¬ dist3 p c.position < 0.3) :
    norm3 (fieldAt p [c]) = kCoulomb * c.q /
        ((p.x - c.position.x) * (p.x - c.position.x) +
         (p.y - c.position.y) * (p.y - c.position.y) +
         (p.z - c.position.z) * (p.z - c.position.z)) / dist3 p c.position *
      dist3 p c.position := by
  rw [fieldAt_single_charge p c hfar, norm3_smul3]
  have hmu : 0 ≤ kCoulomb * c.q /
      ((p.x - c.position.x) * (p.x - c.position.x) +
       (p.y - c.position.y) * (p.y - c.position.y) +
       (p.z - c.position.z) * (p.z - c.position.z)) / dist3 p c.position :=
    le_of_lt (div_pos (div_pos (mul_pos kCoulomb_pos hq) (offsetSq_pos_of_far p c hfar))
      (dist3_pos_of_far p c hfar))
  rw [abs_of_nonneg hmu]
  rfl

/-- Generic arithmetic core of one integration step: moving from a point
along `K` times its offset from a center, with step length normalised by
`K` times the current distance, puts the point exactly `s` further from
the center. -/
theorem step_dist_generic (px py pz cx cy cz s K : ℝ) (hs : 0 ≤ s) (hK : 0 < K)
    (hA : 0 < (px - cx) * (px - cx) + (py - cy) * (py - cy) + (pz - cz) * (pz - cz)) :
    Real.sqrt
      ((px + s / (K * Real.sqrt ((px - cx) * (px - cx) + (py - cy) * (py - cy) +
          (pz - cz) * (pz - cz))) * (K * (px - cx)) - cx) *
       (px + s / (K * Real.sqrt ((px - cx) * (px - cx) + (py - cy) * (py - cy) +
          (pz - cz) * (pz - cz))) * (K * (px - cx)) - cx) +
       (py + s / (K * Real.sqrt ((px - cx) * (px - cx) + (py - cy) * (py - cy) +
          (pz - cz) * (pz - cz))) * (K * (py - cy)) - cy) *
       (py + s / (K * Real.sqrt ((px - cx) * (px - cx) + (py - cy) * (py - cy) +
          (pz - cz) * (pz - cz))) * (K * (py - cy)) - cy) +
       (pz + s / (K * Real.sqrt ((px - cx) * (px - cx) + (py - cy) * (py - cy) +
          (pz - cz) * (pz - cz))) * (K * (pz - cz)) - cz) *
       (pz + s / (K * Real.sqrt ((px - cx) * (px - cx) + (py - cy) * (py - cy) +
          (pz - cz) * (pz - cz))) * (K * (pz - cz)) - cz)) =
      Real.sqrt ((px - cx) * (px - cx) + (py - cy) * (py - cy) +
        (pz - cz) * (pz - cz)) + s := by
  have hAnn : 0 ≤ (px - cx) * (px - cx) + (py - cy) * (py - cy) + (pz - cz) * (pz - cz) :=
    le_of_lt hA
  set d := Real.sqrt ((px - cx) * (px - cx) + (py - cy) * (py - cy) +
    (pz - cz) * (pz - cz)) with hd
  have hd0 : 0 < d := Real.sqrt_pos.mpr hA
  have hdd : d * d = (px - cx) * (px - cx) + (py - cy) * (py - cy) + (pz - cz) * (pz - cz) :=
    Real.mul_self_sqrt hAnn
  have hcomp : ∀ u v : ℝ, u + s / (K * d) * (K * (u - v)) - v = (1 + s / d) * (u - v) := by
    intro u v
    field_simp
    ring
  rw [hcomp px cx, hcomp py cy, hcomp pz cz]
  rw [show (1 + s / d) * (px - cx) * ((1 + s / d) * (px - cx)) +
      (1 + s / d) * (py - cy) * ((1 + s / d) * (py - cy)) +
      (1 + s / d) * (pz - cz) * ((1 + s / d) * (pz - cz)) =
      (1 + s / d) ^ 2 * ((px - cx) * (px - cx) + (py - cy) * (py - cy) +
        (pz - cz) * (pz - cz)) from by ring]
  rw [Real.sqrt_mul (sq_nonneg _), Real.sqrt_sq_eq_abs, ← hd]
  have hfac : 0 ≤ 1 + s / d := by
    have := div_nonneg hs (le_of_lt hd0)
    linarith
  rw [abs_of_nonneg hfac, add_mul, one_mul, div_mul_cancel₀ s (ne_of_gt hd0)]

/-- Stepping from a point along the single-charge field moves the point
exactly `s` further from the charge. -/
theorem single_charge_next_dist (p : Vec3) (c : Charge) (s : ℝ)
    (hq : 0 < c.q) (hs : 0 ≤ s) (hfar : ¬ dist3 p c.position < 0.3) :
    dist3 ⟨p.x + s / norm3 (fieldAt p [c]) * (fieldAt p [c]).x,
           p.y + s / norm3 (fieldAt p [c]) * (fieldAt p [c]).y,
           p.z + s / norm3 (fieldAt p [c]) * (fieldAt p [c]).z⟩ c.position =
      dist3 p c.position + s := by
  have hD2 := offsetSq_pos_of_far p c hfar
  have hdq : dist3 p c.position = Real.sqrt
      ((p.x - c.position.x) * (p.x - c.position.x) +
       (p.y - c.position.y) * (p.y - c.position.y) +
       (p.z - c.position.z) * (p.z - c.position.z)) := by
    simp only [dist3, norm3, vsub]
  have hK : 0 < kCoulomb * c.q /
      ((p.x - c.position.x) * (p.x - c.position.x) +
       (p.y - c.position.y) * (p.y - c.position.y) +
       (p.z - c.position.z) * (p.z - c.position.z)) / dist3 p c.position :=
    div_pos (div_pos (mul_pos kCoulomb_pos hq) hD2) (dist3_pos_of_far p c hfar)
  rw [norm3_fieldAt_single p c hq hfar, fieldAt_single_charge p c hfar]
  simp only [smul3, vsub, dist3, norm3]
  rw [hdq] at hK
  exact step_dist_generic p.x p.y p.z c.position.x c.position.y c.position.z s
    (kCoulomb * c.q /
      ((p.x - c.position.x) * (p.x - c.position.x) +
       (p.y - c.position.y) * (p.y - c.position.y) +
       (p.z - c.position.z) * (p.z - c.position.z)) /
      Real.sqrt ((p.x - c.position.x) * (p.x - c.position.x) +
       (p.y - c.position.y) * (p.y - c.position.y) +
       (p.z - c.position.z) * (p.z - c.position.z))) hs hK hD2

/-- One induction over the step budget: with a single positive charge and
a seed at least `0.3` away, the trace never stops by absorption and the
distance to the charge strictly increases along the recorded points. -/
theorem single_charge_trace_aux (c : Charge) (s : ℝ) (hq : 0 < c.q) (hs : 0 < s) :
    ∀ (n : ℕ) (p : Vec3), 0.3 ≤ dist3 p c.position →
      (fieldLineAux n p [c] s).2 ≠ StopReason.absorbed ∧
      List.Chain' (fun a b => dist3 a c.position < dist3 b c.position)
        (p :: (fieldLineAux n p [c] s).1)
  | 0, p, hd => by
    constructor
    · rw [fieldLineAux]
      simp
    · rw [fieldLineAux]
      simp
  | Nat.succ n, p, hd => by
    have hfar : ¬ dist3 p c.position < 0.3 := not_lt.mpr hd
    by_cases hw : norm3 (fieldAt p [c]) < 0.01
    · have heq : fieldLineAux (Nat.succ n) p [c] s = ([], StopReason.weakField) := by
        rw [fieldLineAux, if_pos hw]
      rw [heq]
      exact ⟨by simp, by simp⟩
    · set nextp : Vec3 := ⟨p.x + s / norm3 (fieldAt p [c]) * (fieldAt p [c]).x,
                           p.y + s / norm3 (fieldAt p [c]) * (fieldAt p [c]).y,
                           p.z + s / norm3 (fieldAt p [c]) * (fieldAt p [c]).z⟩
        with hnextdef
      have hdist : dist3 nextp c.position = dist3 p c.position + s := by
        rw [hnextdef]
        exact single_charge_next_dist p c s hq (le_of_lt hs) hfar
      have hd' : 0.3 ≤ dist3 nextp c.position := by
        rw [hdist]
        linarith
      have hninc : dist3 p c.position < dist3 nextp c.position := by
        rw [hdist]
        linarith
      have hnc : ¬ tooCloseToAny nextp [c] := by
        rintro ⟨ch, hch, hlt⟩
        rw [List.mem_singleton] at hch
        subst hch
        rw [hdist] at hlt
        linarith
      have heq : fieldLineAux (Nat.succ n) p [c] s =
          if 15 < |nextp.x| ∨ 15 < |nextp.y| then ([], StopReason.outOfBounds)
          else (nextp :: (fieldLineAux n nextp [c] s).1,
                (fieldLineAux n nextp [c] s).2) := by
        rw [fieldLineAux, if_neg hw, ← hnextdef, if_neg hnc]
      by_cases hb : 15 < |nextp.x| ∨ 15 < |nextp.y|
      · rw [heq, if_pos hb]
        exact ⟨by simp, by simp⟩
      · rw [heq, if_neg hb]
        obtain ⟨ih1, ih2⟩ := single_charge_trace_aux c s hq hs n nextp hd'
        exact ⟨ih1, List.chain'_cons.mpr ⟨hninc, ih2⟩⟩

/-- C5 amended: for a trace started at least `0.3` from a single charge
with `q > 0` and a positive step size, the trace never stops by the
absorption condition and the distance from the charge strictly increases
at every step; termination, however, can be by the weak-field cutoff or
by exhausting `maxSteps` rather than by leaving the bounding box. -/
theorem single_positive_charge_no_absorption (c : Charge) (start : Vec3)
    (maxSteps : ℕ) (stepSize : ℝ) (hq : 0 < c.q) (hs : 0 < stepSize)
    (hd : 0.3 ≤ dist3 start c.position) :
    (calculateFieldLine start [c] maxSteps stepSize).2 ≠ StopReason.absorbed ∧
    List.Chain' (fun a b => dist3 a c.position < dist3 b c.position)
      (calculateFieldLine start [c] maxSteps stepSize).1 := by
  obtain ⟨h1, h2⟩ := single_charge_trace_aux c stepSize hq hs maxSteps start hd
  exact ⟨h1, h2⟩

/-- Witness for the amended C5: unit charge at the origin, seed on the
x-axis at distance 1, three steps of size 1. -/
theorem single_positive_charge_no_absorption_witness :
    (0:ℝ) < (⟨⟨0, 0, 0⟩, 1⟩ : Charge).q ∧ (0:ℝ) < 1 ∧
    0.3 ≤ dist3 ⟨1, 0, 0⟩ (⟨⟨0, 0, 0⟩, 1⟩ : Charge).position ∧
    ((calculateFieldLine ⟨1, 0, 0⟩ [⟨⟨0, 0, 0⟩, 1⟩] 3 1).2 ≠ StopReason.absorbed ∧
     List.Chain' (fun a b => dist3 a (⟨⟨0, 0, 0⟩, 1⟩ : Charge).position <
        dist3 b (⟨⟨0, 0, 0⟩, 1⟩ : Charge).position)
      (calculateFieldLine ⟨1, 0, 0⟩ [⟨⟨0, 0, 0⟩, 1⟩] 3 1).1) := by
  have hd : (0.3:ℝ) ≤ dist3 ⟨1, 0, 0⟩ (⟨⟨0, 0, 0⟩, 1⟩ : Charge).position := by
    simp only [dist3, norm3, vsub]
    rw [show ((1:ℝ) - 0) * (1 - 0) + ((0:ℝ) - 0) * (0 - 0) + ((0:ℝ) - 0) * (0 - 0) = 1
      from by ring, Real.sqrt_one]
    norm_num
  exact ⟨one_pos, one_pos, hd,
    single_positive_charge_no_absorption ⟨⟨0, 0, 0⟩, 1⟩ ⟨1, 0, 0⟩ 3 1 one_pos one_pos hd⟩

/-- C5 counterexample: with a single positive but very small charge
(`q = 1e-15 > 0`) at the origin and the standard seed distance `0.5`, the
trace stops immediately because the field magnitude is below `0.01`: it
terminates by the weak-field cutoff while still inside the bounding box,
not by leaving the box. -/
theorem field_line_can_stop_by_weak_field :
    0 < weakCharge.q ∧
    (calculateFieldLine ⟨0.5, 0, 0⟩ [weakCharge] 200 0.1).2 = StopReason.weakField ∧
    (calculateFieldLine ⟨0.5, 0, 0⟩ [weakCharge] 200 0.1).2 ≠ StopReason.outOfBounds := by
  have hcontrib : fieldAt ⟨0.5, 0, 0⟩ [weakCharge] = ⟨3.596e-5, 0, 0⟩ := by
    show vadd ⟨0, 0, 0⟩ (chargeContribution ⟨0.5, 0, 0⟩ weakCharge) = _
    rw [vadd_zero_left]
    simp only [chargeContribution, weakCharge, kCoulomb]
    rw [show ((0.5:ℝ) - 0) * (0.5 - 0) + ((0:ℝ) - 0) * (0 - 0) +
        ((0:ℝ) - 0) * (0 - 0) = 0.25 from by norm_num]
    rw [show Real.sqrt 0.25 = 0.5 from by
      rw [show (0.25:ℝ) = 0.5 ^ 2 from by norm_num]
      exact Real.sqrt_sq (by norm_num)]
    rw [if_neg (by norm_num)]
    simp only [Vec3.mk.injEq]
    norm_num
  have hnorm : norm3 (⟨3.596e-5, 0, 0⟩ : Vec3) = 3.596e-5 := by
    simp only [norm3]
    rw [show (3.596e-5:ℝ) * 3.596e-5 + 0 * 0 + 0 * 0 = (3.596e-5:ℝ) ^ 2 from by ring]
    exact Real.sqrt_sq (by norm_num)
  have hw : norm3 (fieldAt ⟨0.5, 0, 0⟩ [weakCharge]) < 0.01 := by
    rw [hcontrib, hnorm]
    norm_num
  have haux : fieldLineAux 200 ⟨0.5, 0, 0⟩ [weakCharge] 0.1 =
      ([], StopReason.weakField) := by
    rw [show (200:ℕ) = Nat.succ 199 from rfl, fieldLineAux, if_pos hw]
  refine ⟨by rw [weakCharge]; norm_num, ?_, ?_⟩ <;>
    simp [calculateFieldLine, haux]

end VQLab
